import Mathlib

/-!
Verification of the pribambase synchronization addon: a shallow embedding of
its spritesheet atlas assembler and its binary wire protocol, translated from
the sources (messaging/handle.py, modify.py, sync.py).

Bytes are modelled as natural numbers held in lists.  The numpy pixel buffer
produced by the spritesheet assembler is modelled as a total function from a
(row, byte-column) position to the byte stored there, with the array extent
((h + 2) * count_y rows by (w + 2) * 4 * count_x byte columns) tracked
separately; the successive in-place passes of the algorithm become successive
function definitions, each reading the previous one exactly where the numpy
code reads the pre-pass contents.

The cursor primitives and the dispatcher of the messaging package are not
part of the source tree (only messaging/handle.py is); those definitions are
modelled from the spec, and are marked as such in their doc comments.
-/

namespace Pribambase

/-! ## Grid shape (messaging/handle.py, Spritesheet.execute lines 95-96) -/

/-- Linear scan returning the first candidate c with n up to c * c, used to
model the ceiling square root.  Structural recursion on the fuel keeps the
definition kernel-reducible. -/
def csqrtFrom (n : Nat) : Nat → Nat → Nat
  | c, 0 => c
  | c, fuel + 1 => if n ≤ c * c then c else csqrtFrom n (c + 1) fuel

/-- Number of grid columns of the spritesheet.  Models handle.py line 95,
count_x = math.ceil(length ** 0.5), with the floating-point square root read
as the exact real square root: the least c with length less or equal c * c. -/
def count_x (n : Nat) : Nat := csqrtFrom n 0 n

/-- Number of grid rows.  Models handle.py line 96,
count_y = math.ceil(length / count_x), with the floating-point division read
as exact division, i.e. ceiling division of naturals. -/
def count_y (n : Nat) : Nat := (n + count_x n - 1) / count_x n

lemma csqrtFrom_spec (n : Nat) : ∀ fuel c, (∀ a, a < c → a * a < n) →
    n ≤ (c + fuel) * (c + fuel) →
    n ≤ csqrtFrom n c fuel * csqrtFrom n c fuel ∧
      ∀ a, a < csqrtFrom n c fuel → a * a < n := by
  intro fuel
  induction fuel with
  | zero =>
    intro c hlow hbound
    simp only [csqrtFrom]
    exact ⟨by simpa using hbound, hlow⟩
  | succ k ih =>
    intro c hlow hbound
    by_cases hc : n ≤ c * c
    · simp only [csqrtFrom, if_pos hc]
      exact ⟨hc, hlow⟩
    · simp only [csqrtFrom, if_neg hc]
      have hlow' : ∀ a, a < c + 1 → a * a < n := by
        intro a ha
        rcases Nat.lt_succ_iff_lt_or_eq.mp ha with h | h
        · exact hlow a h
        · subst h; omega
      have hbound' : n ≤ (c + 1 + k) * (c + 1 + k) := by
        have heq : c + 1 + k = c + (k + 1) := by omega
        rw [heq]; exact hbound
      exact ih (c + 1) hlow' hbound'

lemma count_x_spec (n : Nat) :
    n ≤ count_x n * count_x n ∧ ∀ a, a < count_x n → a * a < n := by
  have hbound : n ≤ (0 + n) * (0 + n) := by
    rcases Nat.eq_zero_or_pos n with h | h
    · simp [h]
    · have := Nat.le_mul_of_pos_left n h
      simpa using this
  exact csqrtFrom_spec n n 0 (by omega) hbound

lemma count_x_pos {n : Nat} (h : 1 ≤ n) : 1 ≤ count_x n := by
  by_contra hc
  have h0 : count_x n = 0 := by omega
  have := (count_x_spec n).1
  rw [h0] at this
  omega

lemma ceil_div_mul (m k : Nat) (hk : 0 < k) : m ≤ k * ((m + k - 1) / k) := by
  rcases Nat.eq_zero_or_pos m with h0 | h1
  · simp [h0]
  · have hsplit : m + k - 1 = (m - 1) + k := by omega
    rw [hsplit, Nat.add_div_right _ hk, Nat.mul_add, Nat.mul_one]
    have hdm := Nat.div_add_mod (m - 1) k
    have hmlt : (m - 1) % k < k := Nat.mod_lt _ hk
    omega

lemma ceil_div_pred (m k : Nat) (hk : 0 < k) (h1 : 1 ≤ m) :
    k * ((m + k - 1) / k - 1) < m := by
  have hsplit : m + k - 1 = (m - 1) + k := by omega
  rw [hsplit, Nat.add_div_right _ hk, Nat.add_sub_cancel]
  have hdm := Nat.div_add_mod (m - 1) k
  omega

lemma count_y_mul (n : Nat) (h : 1 ≤ n) : n ≤ count_x n * count_y n := by
  have hcx := count_x_pos h
  exact ceil_div_mul n (count_x n) (by omega)

lemma count_y_min (n : Nat) (h : 1 ≤ n) : count_x n * (count_y n - 1) < n := by
  have hcx := count_x_pos h
  exact ceil_div_pred n (count_x n) (by omega) h

lemma count_y_pos {n : Nat} (h : 1 ≤ n) : 1 ≤ count_y n := by
  have := count_y_mul n h
  by_contra hc
  have h0 : count_y n = 0 := by omega
  rw [h0] at this
  omega

/-! ## The packed atlas (messaging/handle.py, Spritesheet.execute lines 97-121)

A frame is a flat list of h * (w * 4) RGBA bytes.  The atlas buffer holds
(h + 2) * count_y rows of stride * count_x bytes, where stride = (w + 2) * 4;
it is modelled as a function from (row, byte column) to the stored byte. -/

/-- Byte stride of one padded cell: handle.py line 98, stride = (w + 2) * 4. -/
def stride (w : Nat) : Nat := (w + 2) * 4

/-- Atlas contents after the frame copy loop (handle.py lines 102-110): the
buffer starts as zeros; frame n is copied to grid cell (n % count_x,
n // count_x), rows y*(h+2)+1 .. (y+1)*(h+2)-1, byte columns x*stride+4 ..
(x+1)*stride-4. -/
def sheet0 (w h : Nat) (frames : List (List Nat)) (r c : Nat) : Nat :=
  let x := c / stride w
  let cc := c % stride w
  let y := r / (h + 2)
  let rr := r % (h + 2)
  let n := y * count_x frames.length + x
  if 1 ≤ rr ∧ rr ≤ h ∧ 4 ≤ cc ∧ cc < stride w - 4 ∧ n < frames.length then
    (frames.getD n []).getD ((rr - 1) * (w * 4) + (cc - 4)) 0
  else 0

/-- Atlas contents after the first horizontal bleed copy (handle.py line 113):
viewing the buffer as rows of stride bytes, byte columns 0..4 are overwritten
with byte columns 4..8 of the same row. -/
def sheet1L (w h : Nat) (frames : List (List Nat)) (r c : Nat) : Nat :=
  if c % stride w < 4 then sheet0 w h frames r (c + 4) else sheet0 w h frames r c

/-- Atlas contents after the second horizontal bleed copy (handle.py line 114):
byte columns stride-4..stride are overwritten with the post-first-copy
contents of byte columns stride-8..stride-4. -/
def sheet1 (w h : Nat) (frames : List (List Nat)) (r c : Nat) : Nat :=
  if stride w - 4 ≤ c % stride w then sheet1L w h frames r (c - 4)
  else sheet1L w h frames r c

/-- Atlas contents after the first vertical bleed copy (handle.py line 118):
viewing the buffer as count_y bands of h+2 full rows, row 0 of every band is
overwritten with row 1 of the same band. -/
def sheet2T (w h : Nat) (frames : List (List Nat)) (r c : Nat) : Nat :=
  if r % (h + 2) = 0 then sheet1 w h frames (r + 1) c else sheet1 w h frames r c

/-- Final atlas contents after the second vertical bleed copy (handle.py line
119): row h+1 of every band is overwritten with the post-first-copy contents
of row h of the same band. -/
def sheet2 (w h : Nat) (frames : List (List Nat)) (r c : Nat) : Nat :=
  if r % (h + 2) = h + 1 then sheet2T w h frames (r - 1) c
  else sheet2T w h frames r c

/-- Number of rows of the allocated atlas buffer (handle.py line 102). -/
def sheetRows (h n : Nat) : Nat := (h + 2) * count_y n

/-- Number of byte columns of the allocated atlas buffer (handle.py line 102). -/
def sheetColsBytes (w n : Nat) : Nat := stride w * count_x n

/-- Width in pixels of the sheet image created on the host side
(modify.py line 373, tex_w = (size[0] + 2) * count[0]). -/
def texW (w cx : Nat) : Nat := (w + 2) * cx

/-- Height in pixels of the sheet image created on the host side
(modify.py line 373, tex_h = (size[1] + 2) * count[1]). -/
def texH (h cy : Nat) : Nat := (h + 2) * cy

/-- Extraction of one frame from the atlas (modify.py lines 408-411): numpy
slice of the cell interior at grid position (i % count_x, i // count_x),
flattened row-major.  Numpy slicing clamps slice bounds to the array extent,
modelled by the min operations; a slice whose clamped stop is at or before
its clamped start is empty. -/
def slicePixels (w h : Nat) (frames : List (List Nat)) (i : Nat) : List Nat :=
  let str := stride w
  let cx := count_x frames.length
  let hR := (h + 2) * count_y frames.length
  let wB := str * cx
  let fx := i % cx
  let fy := i / cx
  let r0 := min (fy * (h + 2) + 1) hR
  let r1 := min ((fy + 1) * (h + 2) - 1) hR
  let c0 := min (fx * str + 4) wB
  let c1 := min ((fx + 1) * str - 4) wB
  let nc := c1 - c0
  (List.range ((r1 - r0) * nc)).map
    (fun k => sheet2 w h frames (r0 + k / nc) (c0 + k % nc))

/-! ## Position arithmetic helpers -/

lemma stride_eq (w : Nat) : stride w = w * 4 + 8 := by
  simp only [stride]; ring

lemma stride_ge (w : Nat) : 8 ≤ stride w := by
  rw [stride_eq]; omega

lemma mul_add_mod_lt (a b off : Nat) (h : off < b) : (a * b + off) % b = off := by
  rw [Nat.mul_comm a b, Nat.mul_add_mod]
  exact Nat.mod_eq_of_lt h

lemma mul_add_div_lt (a b off : Nat) (h : off < b) : (a * b + off) / b = a := by
  rw [Nat.mul_comm a b, Nat.mul_add_div (by omega), Nat.div_eq_of_lt h, Nat.add_zero]

/-! ## Reduction lemmas tracing one atlas position through the bleed passes -/

lemma sheet2_mid (w h : Nat) (f : List (List Nat)) (y rr c : Nat)
    (h1 : 1 ≤ rr) (h2 : rr ≤ h) :
    sheet2 w h f (y * (h + 2) + rr) c = sheet1 w h f (y * (h + 2) + rr) c := by
  have hm : (y * (h + 2) + rr) % (h + 2) = rr := mul_add_mod_lt _ _ _ (by omega)
  simp only [sheet2]
  rw [hm, if_neg (by omega)]
  simp only [sheet2T]
  rw [hm, if_neg (by omega)]

lemma sheet2_row0 (w h : Nat) (f : List (List Nat)) (y c : Nat) :
    sheet2 w h f (y * (h + 2)) c = sheet1 w h f (y * (h + 2) + 1) c := by
  have hm : (y * (h + 2)) % (h + 2) = 0 := Nat.mul_mod_left _ _
  simp only [sheet2]
  rw [hm, if_neg (by omega)]
  simp only [sheet2T]
  rw [hm, if_pos rfl]

lemma sheet2_rowBot (w h : Nat) (f : List (List Nat)) (y c : Nat) (hh : 1 ≤ h) :
    sheet2 w h f (y * (h + 2) + (h + 1)) c = sheet1 w h f (y * (h + 2) + h) c := by
  have hm1 : (y * (h + 2) + (h + 1)) % (h + 2) = h + 1 := mul_add_mod_lt _ _ _ (by omega)
  have he : y * (h + 2) + (h + 1) - 1 = y * (h + 2) + h := by omega
  have hm2 : (y * (h + 2) + h) % (h + 2) = h := mul_add_mod_lt _ _ _ (by omega)
  simp only [sheet2]
  rw [hm1, if_pos rfl, he]
  simp only [sheet2T]
  rw [hm2, if_neg (by omega)]

lemma sheet1_mid (w h : Nat) (f : List (List Nat)) (r x cc : Nat)
    (h3 : 4 ≤ cc) (h4 : cc < stride w - 4) :
    sheet1 w h f r (x * stride w + cc) = sheet0 w h f r (x * stride w + cc) := by
  have hs := stride_ge w
  have hm : (x * stride w + cc) % stride w = cc := mul_add_mod_lt _ _ _ (by omega)
  simp only [sheet1]
  rw [hm, if_neg (by omega)]
  simp only [sheet1L]
  rw [hm, if_neg (by omega)]

lemma sheet1_left (w h : Nat) (f : List (List Nat)) (r x b : Nat) (hb : b < 4) :
    sheet1 w h f r (x * stride w + b) = sheet0 w h f r (x * stride w + (b + 4)) := by
  have hs := stride_ge w
  have hm : (x * stride w + b) % stride w = b := mul_add_mod_lt _ _ _ (by omega)
  simp only [sheet1]
  rw [hm, if_neg (by omega)]
  simp only [sheet1L]
  rw [hm, if_pos (by omega), Nat.add_assoc]

lemma sheet1_right (w h : Nat) (f : List (List Nat)) (r x b : Nat)
    (hb : b < 4) (hw : 1 ≤ w) :
    sheet1 w h f r (x * stride w + (stride w - 4 + b)) =
      sheet0 w h f r (x * stride w + (w * 4 + b)) := by
  have hs := stride_eq w
  have hm : (x * stride w + (stride w - 4 + b)) % stride w = stride w - 4 + b :=
    mul_add_mod_lt _ _ _ (by omega)
  have he : x * stride w + (stride w - 4 + b) - 4 = x * stride w + (w * 4 + b) := by
    omega
  simp only [sheet1]
  rw [hm, if_pos (by omega), he]
  have hm2 : (x * stride w + (w * 4 + b)) % stride w = w * 4 + b :=
    mul_add_mod_lt _ _ _ (by omega)
  simp only [sheet1L]
  rw [hm2, if_neg (by omega)]

/-- Value of the copy-pass atlas inside cell (x, y): the interior holds the
bytes of frame y * count_x + x when that frame exists, and zero in an unused
cell. -/
lemma sheet0_at (w h : Nat) (f : List (List Nat)) (x y rr cc : Nat)
    (h1 : 1 ≤ rr) (h2 : rr ≤ h) (h3 : 4 ≤ cc) (h4 : cc < stride w - 4) :
    sheet0 w h f (y * (h + 2) + rr) (x * stride w + cc) =
      if y * count_x f.length + x < f.length then
        (f.getD (y * count_x f.length + x) []).getD ((rr - 1) * (w * 4) + (cc - 4)) 0
      else 0 := by
  have hs := stride_ge w
  have hmr : (y * (h + 2) + rr) % (h + 2) = rr := mul_add_mod_lt _ _ _ (by omega)
  have hdr : (y * (h + 2) + rr) / (h + 2) = y := mul_add_div_lt _ _ _ (by omega)
  have hmc : (x * stride w + cc) % stride w = cc := mul_add_mod_lt _ _ _ (by omega)
  have hdc : (x * stride w + cc) / stride w = x := mul_add_div_lt _ _ _ (by omega)
  simp only [sheet0]
  rw [hmr, hdr, hmc, hdc]
  by_cases hn : y * count_x f.length + x < f.length
  · rw [if_pos ⟨h1, h2, h3, h4, hn⟩, if_pos hn]
  · rw [if_neg (by tauto), if_neg hn]

/-- Any position of the copy-pass atlas lying in an unused cell is zero. -/
lemma sheet0_blank (w h : Nat) (f : List (List Nat)) (x y rr cc : Nat)
    (hrr : rr < h + 2) (hcc : cc < stride w)
    (hn : f.length ≤ y * count_x f.length + x) :
    sheet0 w h f (y * (h + 2) + rr) (x * stride w + cc) = 0 := by
  have hmr : (y * (h + 2) + rr) % (h + 2) = rr := mul_add_mod_lt _ _ _ (by omega)
  have hdr : (y * (h + 2) + rr) / (h + 2) = y := mul_add_div_lt _ _ _ (by omega)
  have hmc : (x * stride w + cc) % stride w = cc := mul_add_mod_lt _ _ _ (by omega)
  have hdc : (x * stride w + cc) / stride w = x := mul_add_div_lt _ _ _ (by omega)
  simp only [sheet0]
  rw [hmr, hdr, hmc, hdc]
  rw [if_neg (by omega)]

/-- Any position of the horizontally bled atlas lying in an unused cell is
zero: both horizontal copies read within the same cell block. -/
lemma sheet1_blank (w h : Nat) (f : List (List Nat)) (x y rr cc : Nat)
    (hrr : rr < h + 2) (hcc : cc < stride w)
    (hn : f.length ≤ y * count_x f.length + x) :
    sheet1 w h f (y * (h + 2) + rr) (x * stride w + cc) = 0 := by
  have hs := stride_ge w
  have hm : (x * stride w + cc) % stride w = cc := mul_add_mod_lt _ _ _ (by omega)
  simp only [sheet1]
  rw [hm]
  by_cases h1 : stride w - 4 ≤ cc
  · rw [if_pos h1]
    have he : x * stride w + cc - 4 = x * stride w + (cc - 4) := by omega
    rw [he]
    have hm2 : (x * stride w + (cc - 4)) % stride w = cc - 4 :=
      mul_add_mod_lt _ _ _ (by omega)
    simp only [sheet1L]
    rw [hm2]
    by_cases h2 : cc - 4 < 4
    · rw [if_pos h2]
      have he2 : x * stride w + (cc - 4) + 4 = x * stride w + cc := by omega
      rw [he2]
      exact sheet0_blank w h f x y rr cc hrr hcc hn
    · rw [if_neg h2]
      exact sheet0_blank w h f x y rr (cc - 4) hrr (by omega) hn
  · rw [if_neg h1]
    simp only [sheet1L]
    rw [hm]
    by_cases h2 : cc < 4
    · rw [if_pos h2]
      have he2 : x * stride w + cc + 4 = x * stride w + (cc + 4) := by omega
      rw [he2]
      exact sheet0_blank w h f x y rr (cc + 4) hrr (by omega) hn
    · rw [if_neg h2]
      exact sheet0_blank w h f x y rr cc hrr hcc hn

/-- Any position of the fully bled atlas lying in an unused cell is zero:
the vertical copies also read within the same cell block. -/
lemma sheet2_blank (w h : Nat) (f : List (List Nat)) (x y rr cc : Nat)
    (hrr : rr < h + 2) (hcc : cc < stride w)
    (hn : f.length ≤ y * count_x f.length + x) :
    sheet2 w h f (y * (h + 2) + rr) (x * stride w + cc) = 0 := by
  have hm : (y * (h + 2) + rr) % (h + 2) = rr := mul_add_mod_lt _ _ _ (by omega)
  simp only [sheet2]
  rw [hm]
  by_cases h1 : rr = h + 1
  · rw [if_pos h1]
    have he : y * (h + 2) + rr - 1 = y * (h + 2) + (rr - 1) := by omega
    rw [he]
    have hm2 : (y * (h + 2) + (rr - 1)) % (h + 2) = rr - 1 :=
      mul_add_mod_lt _ _ _ (by omega)
    simp only [sheet2T]
    rw [hm2]
    by_cases h2 : rr - 1 = 0
    · rw [if_pos h2]
      have he2 : y * (h + 2) + (rr - 1) + 1 = y * (h + 2) + rr := by omega
      rw [he2]
      exact sheet1_blank w h f x y rr cc hrr hcc hn
    · rw [if_neg h2]
      exact sheet1_blank w h f x y (rr - 1) cc (by omega) hcc hn
  · rw [if_neg h1]
    simp only [sheet2T]
    rw [hm]
    by_cases h2 : rr = 0
    · rw [if_pos h2]
      have he2 : y * (h + 2) + rr + 1 = y * (h + 2) + (rr + 1) := by omega
      rw [he2]
      exact sheet1_blank w h f x y (rr + 1) cc (by omega) hcc hn
    · rw [if_neg h2]
      exact sheet1_blank w h f x y rr cc hrr hcc hn

/-- Value of the finished atlas at interior position (rr, cc) of cell (x, y):
the bleed passes do not touch cell interiors, so the value is the one the
copy pass wrote there. -/
lemma sheet2_interior (w h : Nat) (f : List (List Nat)) (x y rr cc : Nat)
    (h1 : rr < h) (h2 : cc < w * 4) :
    sheet2 w h f (y * (h + 2) + 1 + rr) (x * stride w + 4 + cc) =
      if y * count_x f.length + x < f.length then
        (f.getD (y * count_x f.length + x) []).getD (rr * (w * 4) + cc) 0
      else 0 := by
  have hs := stride_eq w
  rw [Nat.add_assoc (y * (h + 2)) 1 rr, Nat.add_assoc (x * stride w) 4 cc]
  rw [sheet2_mid w h f y (1 + rr) _ (by omega) (by omega)]
  rw [sheet1_mid w h f _ x (4 + cc) (by omega) (by omega)]
  rw [sheet0_at w h f x y (1 + rr) (4 + cc) (by omega) (by omega) (by omega) (by omega)]
  have hi1 : 1 + rr - 1 = rr := by omega
  have hi2 : 4 + cc - 4 = cc := by omega
  rw [hi1, hi2]

/-- Mapping position defaults over the range of a list's length recovers the
list itself. -/
lemma range_map_getD (l : List Nat) :
    (List.range l.length).map (fun k => l.getD k 0) = l := by
  induction l with
  | nil => simp
  | cons a t ih =>
    rw [List.length_cons, List.range_succ_eq_map, List.map_cons, List.map_map]
    simp only [List.getD_cons_zero]
    have hmap : (List.range t.length).map ((fun k => (a :: t).getD k 0) ∘ Nat.succ)
        = (List.range t.length).map (fun k => t.getD k 0) := by
      apply List.map_congr_left
      intro k hk
      simp [List.getD_cons_succ]
    rw [hmap, ih]

/-- Slicing a frame whose grid row exists: the numpy clamps are inactive and
the slice is the full h by w*4 interior of cell (i % count_x, i / count_x). -/
lemma slicePixels_in_grid (w h : Nat) (frames : List (List Nat)) (i : Nat)
    (hcx : 0 < count_x frames.length)
    (hfy : i / count_x frames.length < count_y frames.length) :
    slicePixels w h frames i = (List.range (h * (w * 4))).map (fun k =>
      sheet2 w h frames (i / count_x frames.length * (h + 2) + 1 + k / (w * 4))
        (i % count_x frames.length * stride w + 4 + k % (w * 4))) := by
  simp only [slicePixels]
  set str := stride w with hstr_def
  have hstr : str = w * 4 + 8 := by rw [hstr_def]; exact stride_eq w
  set cx := count_x frames.length with hcx_def
  set cy := count_y frames.length with hcy_def
  set fy := i / cx with hfy_def
  set fx := i % cx with hfx_def
  have hfx : fx < cx := by rw [hfx_def]; exact Nat.mod_lt _ hcx
  have hey : (fy + 1) * (h + 2) = fy * (h + 2) + (h + 2) := by ring
  have hex : (fx + 1) * str = fx * str + str := by ring
  rw [hey, hex]
  have hband : fy * (h + 2) + (h + 2) ≤ (h + 2) * cy := by
    have h1 : (fy + 1) * (h + 2) ≤ cy * (h + 2) :=
      Nat.mul_le_mul_right _ (by omega)
    rw [hey] at h1
    rw [Nat.mul_comm cy (h + 2)] at h1
    exact h1
  have hcol : fx * str + str ≤ str * cx := by
    have h1 : (fx + 1) * str ≤ cx * str := Nat.mul_le_mul_right _ (by omega)
    rw [hex] at h1
    rw [Nat.mul_comm cx str] at h1
    exact h1
  rw [min_eq_left (by omega), min_eq_left (by omega),
    min_eq_left (by omega), min_eq_left (by omega)]
  have hnr : fy * (h + 2) + (h + 2) - 1 - (fy * (h + 2) + 1) = h := by omega
  have hnc : fx * str + str - 4 - (fx * str + 4) = str - 8 := by omega
  rw [hnr, hnc]
  have hwf : str - 8 = w * 4 := by omega
  rw [hwf]

/-- Slicing with a grid row past the sheet: the clamped slice is empty. -/
lemma slicePixels_out (w h : Nat) (frames : List (List Nat)) (i : Nat)
    (hfy : count_y frames.length ≤ i / count_x frames.length) :
    slicePixels w h frames i = [] := by
  simp only [slicePixels]
  set str := stride w with hstr_def
  set cx := count_x frames.length with hcx_def
  set cy := count_y frames.length with hcy_def
  set fy := i / cx with hfy_def
  have hband : (h + 2) * cy ≤ fy * (h + 2) := by
    have h1 : (h + 2) * cy ≤ (h + 2) * fy := Nat.mul_le_mul_left _ hfy
    rw [Nat.mul_comm (h + 2) fy] at h1
    exact h1
  have hey : (fy + 1) * (h + 2) = fy * (h + 2) + (h + 2) := by ring
  rw [hey]
  rw [min_eq_right (show (h + 2) * cy ≤ fy * (h + 2) + 1 by omega)]
  rw [min_eq_right (show (h + 2) * cy ≤ fy * (h + 2) + (h + 2) - 1 by omega)]
  rw [Nat.sub_self, Nat.zero_mul]
  simp

/-- C1 workhorse: the packed atlas sliced at a valid frame index yields that
frame back, byte for byte. -/
theorem spritesheet_roundtrip (w h : Nat) (frames : List (List Nat))
    (hlen : ∀ f ∈ frames, f.length = h * (w * 4))
    (i : Nat) (hi : i < frames.length) :
    slicePixels w h frames i = frames.getD i [] := by
  have hlen1 : 1 ≤ frames.length := by omega
  have hcx := count_x_pos hlen1
  have hmul := count_y_mul frames.length hlen1
  have hfy : i / count_x frames.length < count_y frames.length :=
    Nat.div_lt_of_lt_mul (by omega)
  rw [slicePixels_in_grid w h frames i (by omega) hfy]
  have hframe : frames.getD i [] ∈ frames := by
    rw [List.getD_eq_getElem frames [] hi]
    exact List.getElem_mem hi
  have hfl : (frames.getD i []).length = h * (w * 4) := hlen _ hframe
  have hni : i / count_x frames.length * count_x frames.length
      + i % count_x frames.length = i := by
    rw [Nat.mul_comm]
    exact Nat.div_add_mod i (count_x frames.length)
  rcases Nat.eq_zero_or_pos (w * 4) with hw0 | hwpos
  · have hz : h * (w * 4) = 0 := by rw [hw0, Nat.mul_zero]
    rw [hz]
    simp only [List.range_zero, List.map_nil]
    have : (frames.getD i []).length = 0 := by omega
    exact (List.eq_nil_of_length_eq_zero this).symm
  · have hpoint : (List.range (h * (w * 4))).map (fun k =>
        sheet2 w h frames (i / count_x frames.length * (h + 2) + 1 + k / (w * 4))
          (i % count_x frames.length * stride w + 4 + k % (w * 4)))
        = (List.range (h * (w * 4))).map (fun k => (frames.getD i []).getD k 0) := by
      apply List.map_congr_left
      intro k hk
      rw [List.mem_range] at hk
      have hrr : k / (w * 4) < h := by
        rw [Nat.div_lt_iff_lt_mul hwpos]
        omega
      have hcc : k % (w * 4) < w * 4 := Nat.mod_lt _ hwpos
      rw [sheet2_interior w h frames (i % count_x frames.length)
        (i / count_x frames.length) (k / (w * 4)) (k % (w * 4)) hrr hcc]
      rw [hni, if_pos hi]
      congr 1
      rw [Nat.mul_comm (k / (w * 4)) (w * 4)]
      exact Nat.div_add_mod k (w * 4)
    rw [hpoint, ← hfl, range_map_getD]

/-- Value of the copy-pass atlas at offset (rr, cc) inside the cell of frame
n, for a frame that exists: the byte of frame n at interior position
(rr - 1, cc - 4). -/
lemma sheet0_cell (w h : Nat) (frames : List (List Nat)) (n rr cc : Nat)
    (hn : n < frames.length) (h1 : 1 ≤ rr) (h2 : rr ≤ h)
    (h3 : 4 ≤ cc) (h4 : cc < stride w - 4) :
    sheet0 w h frames (n / count_x frames.length * (h + 2) + rr)
      (n % count_x frames.length * stride w + cc)
      = (frames.getD n []).getD ((rr - 1) * (w * 4) + (cc - 4)) 0 := by
  have hni : n / count_x frames.length * count_x frames.length
      + n % count_x frames.length = n := by
    rw [Nat.mul_comm]
    exact Nat.div_add_mod n (count_x frames.length)
  rw [sheet0_at w h frames (n % count_x frames.length)
    (n / count_x frames.length) rr cc h1 h2 h3 h4, hni, if_pos hn]

/-! ## Claim theorems for the spritesheet assembler -/

/-- C1: Spritesheet pack/unpack round-trip.  For every non-empty sequence of
frames of size w x h in RGBA8 (each frame a flat buffer of h * (w * 4)
bytes) and every valid frame index i, slicing cell i back out of the packed
atlas — skipping the 1-pixel padding ring, at grid position
(i % columns, i / columns) exactly as pack used — returns a pixel buffer
identical, byte for byte, to the i-th input frame. -/
theorem spritesheet_pack_unpack (w h : Nat) (frames : List (List Nat))
    (hlen : ∀ f ∈ frames, f.length = h * (w * 4))
    (i : Nat) (hi : i < frames.length) :
    slicePixels w h frames i = frames.getD i [] :=
  spritesheet_roundtrip w h frames hlen i hi

/-- Witness for C1 at two concrete 1 x 1 frames, slicing frame 1 back out. -/
theorem spritesheet_pack_unpack_witness :
    (∀ f ∈ [[1, 2, 3, 4], [5, 6, 7, 8]], List.length f = 1 * (1 * 4))
    ∧ 1 < List.length [[1, 2, 3, 4], [5, 6, 7, 8]]
    ∧ slicePixels 1 1 [[1, 2, 3, 4], [5, 6, 7, 8]] 1
        = List.getD [[1, 2, 3, 4], [5, 6, 7, 8]] 1 [] :=
  ⟨by decide, by decide,
    spritesheet_pack_unpack 1 1 [[1, 2, 3, 4], [5, 6, 7, 8]] (by decide) 1 (by decide)⟩

/-- C2: Grid shape.  For every frame_count of at least 1, count_x is the
ceiling of the square root of frame_count (the least c with frame_count at
most c * c) and count_y is the ceiling of frame_count / count_x (the least r
with frame_count at most count_x * r); in particular frame_count = 10 gives
columns = 4 and rows = 3, and frame_count = 1 gives columns = rows = 1. -/
theorem grid_shape (n : Nat) (hn : 1 ≤ n) :
    (n ≤ count_x n * count_x n ∧ ∀ a, a < count_x n → a * a < n)
    ∧ (n ≤ count_x n * count_y n ∧ count_x n * (count_y n - 1) < n)
    ∧ count_x 10 = 4 ∧ count_y 10 = 3 ∧ count_x 1 = 1 ∧ count_y 1 = 1 :=
  ⟨count_x_spec n, ⟨count_y_mul n hn, count_y_min n hn⟩,
    by decide, by decide, by decide, by decide⟩

/-- Witness for C2 at frame_count = 7 (columns 3, rows 3). -/
theorem grid_shape_witness :
    1 ≤ 7 ∧
    ((7 ≤ count_x 7 * count_x 7 ∧ ∀ a, a < count_x 7 → a * a < 7)
    ∧ (7 ≤ count_x 7 * count_y 7 ∧ count_x 7 * (count_y 7 - 1) < 7)
    ∧ count_x 10 = 4 ∧ count_y 10 = 3 ∧ count_x 1 = 1 ∧ count_y 1 = 1) :=
  ⟨by decide, grid_shape 7 (by decide)⟩

/-- C5: Atlas size invariant.  The allocated atlas buffer has exactly
(w + 2) * columns * 4 byte columns — i.e. (w + 2) * columns pixels — and
(h + 2) * rows rows, and the sheet image created on the host side has those
same pixel dimensions: its width texW times 4 bytes per pixel is the buffer
byte width, and its height equals the buffer row count. -/
theorem atlas_size (w h n : Nat) :
    sheetColsBytes w n = texW w (count_x n) * 4
    ∧ sheetRows h n = texH h (count_y n)
    ∧ sheetColsBytes w n = (w + 2) * count_x n * 4
    ∧ sheetRows h n = (h + 2) * count_y n := by
  refine ⟨?_, rfl, ?_, rfl⟩
  · simp only [sheetColsBytes, stride, texW]
    ring
  · simp only [sheetColsBytes, stride]
    ring

/-- C9: Unused cells stay blank.  When frame_count < columns * rows, every
byte of each cell with index n at least frame_count — its interior together
with its 1-pixel padding ring — is zero after the copy pass (sheet0), after
the horizontal bleed pass (sheet1) and in the finished atlas (sheet2). -/
theorem unused_cells_blank (w h : Nat) (frames : List (List Nat)) (n : Nat)
    (hn1 : frames.length ≤ n)
    (_hn2 : n < count_x frames.length * count_y frames.length) :
    ∀ rr, rr < h + 2 → ∀ cc, cc < stride w →
      sheet0 w h frames (n / count_x frames.length * (h + 2) + rr)
        (n % count_x frames.length * stride w + cc) = 0
      ∧ sheet1 w h frames (n / count_x frames.length * (h + 2) + rr)
        (n % count_x frames.length * stride w + cc) = 0
      ∧ sheet2 w h frames (n / count_x frames.length * (h + 2) + rr)
        (n % count_x frames.length * stride w + cc) = 0 := by
  intro rr hrr cc hcc
  have hni : n / count_x frames.length * count_x frames.length
      + n % count_x frames.length = n := by
    rw [Nat.mul_comm]
    exact Nat.div_add_mod n (count_x frames.length)
  have hblank : frames.length ≤ n / count_x frames.length * count_x frames.length
      + n % count_x frames.length := by omega
  exact ⟨sheet0_blank w h frames _ _ rr cc hrr hcc hblank,
    sheet1_blank w h frames _ _ rr cc hrr hcc hblank,
    sheet2_blank w h frames _ _ rr cc hrr hcc hblank⟩

/-- Witness for C9: three 1 x 1 frames pack on a 2 x 2 grid; cell 3 is
unused and fully zero at all three stages. -/
theorem unused_cells_blank_witness :
    (List.length [[1, 2, 3, 4], [5, 6, 7, 8], [9, 10, 11, 12]] ≤ 3
    ∧ 3 < count_x 3 * count_y 3)
    ∧ ∀ rr, rr < 1 + 2 → ∀ cc, cc < stride 1 →
      sheet0 1 1 [[1, 2, 3, 4], [5, 6, 7, 8], [9, 10, 11, 12]]
        (3 / count_x 3 * (1 + 2) + rr) (3 % count_x 3 * stride 1 + cc) = 0
      ∧ sheet1 1 1 [[1, 2, 3, 4], [5, 6, 7, 8], [9, 10, 11, 12]]
        (3 / count_x 3 * (1 + 2) + rr) (3 % count_x 3 * stride 1 + cc) = 0
      ∧ sheet2 1 1 [[1, 2, 3, 4], [5, 6, 7, 8], [9, 10, 11, 12]]
        (3 / count_x 3 * (1 + 2) + rr) (3 % count_x 3 * stride 1 + cc) = 0 :=
  ⟨⟨by decide, by decide⟩,
    unused_cells_blank 1 1 [[1, 2, 3, 4], [5, 6, 7, 8], [9, 10, 11, 12]] 3
      (by decide) (by decide)⟩

/-- C10: Frame extraction is total in the frame index.  The slice bounds are
clamped to the atlas extent (the min operations of slicePixels, which model
numpy basic slicing), so extraction is defined for every current_frame value
and never fails: an index inside the columns * rows grid yields the full
h * (w * 4)-byte cell interior (a blank frame for an unused cell), while an
index outside the grid yields the empty buffer. -/
theorem frame_extraction_total (w h : Nat) (frames : List (List Nat))
    (i : Nat) (hne : 1 ≤ frames.length) :
    (slicePixels w h frames i).length =
      if i < count_x frames.length * count_y frames.length
      then h * (w * 4) else 0 := by
  have hcx := count_x_pos hne
  by_cases hig : i < count_x frames.length * count_y frames.length
  · rw [if_pos hig]
    have hfy : i / count_x frames.length < count_y frames.length :=
      Nat.div_lt_of_lt_mul hig
    rw [slicePixels_in_grid w h frames i (by omega) hfy]
    rw [List.length_map, List.length_range]
  · rw [if_neg hig]
    have hcomm : count_y frames.length * count_x frames.length
        = count_x frames.length * count_y frames.length := Nat.mul_comm _ _
    have hfy : count_y frames.length ≤ i / count_x frames.length := by
      rw [Nat.le_div_iff_mul_le (by omega)]
      omega
    rw [slicePixels_out w h frames i hfy]
    rfl

/-- Witness for C10: a single 1 x 1 frame, extraction at the out-of-grid
index 9 yields the empty buffer. -/
theorem frame_extraction_total_witness :
    1 ≤ List.length [[1, 2, 3, 4]]
    ∧ (slicePixels 1 1 [[1, 2, 3, 4]] 9).length =
        (if 9 < count_x 1 * count_y 1 then 1 * (1 * 4) else 0) :=
  ⟨by decide, frame_extraction_total 1 1 [[1, 2, 3, 4]] 9 (by decide)⟩

/-- C3: Bleed correctness.  In the finished atlas, for every cell holding a
frame n: the 1-pixel gutter column immediately left (resp. right) of the cell
equals the cell's own leftmost (resp. rightmost) interior pixel column, the
gutter row immediately above (resp. below) equals the cell's own topmost
(resp. bottommost) interior row, and the four corner gutter pixels equal the
cell's own corner interior pixels (the corner values witness that the
horizontal pass ran first and the vertical pass read the already
horizontally-bled rows).  Every gutter byte is pinned to a byte of frame n
itself, so no gutter pixel is taken from a neighboring cell's content. -/
theorem bleed_gutters (w h : Nat) (frames : List (List Nat)) (n : Nat)
    (hw : 1 ≤ w) (hh : 1 ≤ h) (hn : n < frames.length) :
    (∀ rr, rr < h → ∀ b, b < 4 →
      sheet2 w h frames (n / count_x frames.length * (h + 2) + 1 + rr)
          (n % count_x frames.length * stride w + b)
        = (frames.getD n []).getD (rr * (w * 4) + b) 0
      ∧ sheet2 w h frames (n / count_x frames.length * (h + 2) + 1 + rr)
          (n % count_x frames.length * stride w + (stride w - 4 + b))
        = (frames.getD n []).getD (rr * (w * 4) + ((w - 1) * 4 + b)) 0)
    ∧ (∀ cc, cc < w * 4 →
      sheet2 w h frames (n / count_x frames.length * (h + 2))
          (n % count_x frames.length * stride w + (4 + cc))
        = (frames.getD n []).getD cc 0
      ∧ sheet2 w h frames (n / count_x frames.length * (h + 2) + (h + 1))
          (n % count_x frames.length * stride w + (4 + cc))
        = (frames.getD n []).getD ((h - 1) * (w * 4) + cc) 0)
    ∧ (∀ b, b < 4 →
      sheet2 w h frames (n / count_x frames.length * (h + 2))
          (n % count_x frames.length * stride w + b)
        = (frames.getD n []).getD b 0
      ∧ sheet2 w h frames (n / count_x frames.length * (h + 2))
          (n % count_x frames.length * stride w + (stride w - 4 + b))
        = (frames.getD n []).getD ((w - 1) * 4 + b) 0
      ∧ sheet2 w h frames (n / count_x frames.length * (h + 2) + (h + 1))
          (n % count_x frames.length * stride w + b)
        = (frames.getD n []).getD ((h - 1) * (w * 4) + b) 0
      ∧ sheet2 w h frames (n / count_x frames.length * (h + 2) + (h + 1))
          (n % count_x frames.length * stride w + (stride w - 4 + b))
        = (frames.getD n []).getD ((h - 1) * (w * 4) + ((w - 1) * 4 + b)) 0) := by
  have hs := stride_eq w
  refine ⟨?_, ?_, ?_⟩
  · intro rr hrr b hb
    constructor
    · rw [Nat.add_assoc (n / count_x frames.length * (h + 2)) 1 rr]
      rw [sheet2_mid w h frames (n / count_x frames.length) (1 + rr) _
        (by omega) (by omega)]
      rw [sheet1_left w h frames _ (n % count_x frames.length) b hb]
      rw [sheet0_cell w h frames n (1 + rr) (b + 4) hn (by omega) (by omega)
        (by omega) (by omega)]
      have e1 : 1 + rr - 1 = rr := by omega
      have e2 : b + 4 - 4 = b := by omega
      rw [e1, e2]
    · rw [Nat.add_assoc (n / count_x frames.length * (h + 2)) 1 rr]
      rw [sheet2_mid w h frames (n / count_x frames.length) (1 + rr) _
        (by omega) (by omega)]
      rw [sheet1_right w h frames _ (n % count_x frames.length) b hb hw]
      rw [sheet0_cell w h frames n (1 + rr) (w * 4 + b) hn (by omega) (by omega)
        (by omega) (by omega)]
      have e1 : 1 + rr - 1 = rr := by omega
      have e2 : w * 4 + b - 4 = (w - 1) * 4 + b := by omega
      rw [e1, e2]
  · intro cc hcc
    constructor
    · rw [sheet2_row0 w h frames (n / count_x frames.length) _]
      rw [sheet1_mid w h frames _ (n % count_x frames.length) (4 + cc)
        (by omega) (by omega)]
      rw [sheet0_cell w h frames n 1 (4 + cc) hn (by omega) (by omega)
        (by omega) (by omega)]
      have e : (1 - 1) * (w * 4) + (4 + cc - 4) = cc := by omega
      rw [e]
    · rw [sheet2_rowBot w h frames (n / count_x frames.length) _ hh]
      rw [sheet1_mid w h frames _ (n % count_x frames.length) (4 + cc)
        (by omega) (by omega)]
      rw [sheet0_cell w h frames n h (4 + cc) hn (by omega) (by omega)
        (by omega) (by omega)]
      have e : 4 + cc - 4 = cc := by omega
      rw [e]
  · intro b hb
    refine ⟨?_, ?_, ?_, ?_⟩
    · rw [sheet2_row0 w h frames (n / count_x frames.length) _]
      rw [sheet1_left w h frames _ (n % count_x frames.length) b hb]
      rw [sheet0_cell w h frames n 1 (b + 4) hn (by omega) (by omega)
        (by omega) (by omega)]
      have e : (1 - 1) * (w * 4) + (b + 4 - 4) = b := by omega
      rw [e]
    · rw [sheet2_row0 w h frames (n / count_x frames.length) _]
      rw [sheet1_right w h frames _ (n % count_x frames.length) b hb hw]
      rw [sheet0_cell w h frames n 1 (w * 4 + b) hn (by omega) (by omega)
        (by omega) (by omega)]
      have e : (1 - 1) * (w * 4) + (w * 4 + b - 4) = (w - 1) * 4 + b := by omega
      rw [e]
    · rw [sheet2_rowBot w h frames (n / count_x frames.length) _ hh]
      rw [sheet1_left w h frames _ (n % count_x frames.length) b hb]
      rw [sheet0_cell w h frames n h (b + 4) hn (by omega) (by omega)
        (by omega) (by omega)]
      have e : b + 4 - 4 = b := by omega
      rw [e]
    · rw [sheet2_rowBot w h frames (n / count_x frames.length) _ hh]
      rw [sheet1_right w h frames _ (n % count_x frames.length) b hb hw]
      rw [sheet0_cell w h frames n h (w * 4 + b) hn (by omega) (by omega)
        (by omega) (by omega)]
      have e : w * 4 + b - 4 = (w - 1) * 4 + b := by omega
      rw [e]

/-- Witness for C3: two 1 x 1 frames side by side.  The theorem applies at
cell 0; concretely, the finished atlas byte immediately right of frame 0's
right edge (row 1, byte column 8) is 1 — frame 0's own first byte — and not
5, frame 1's first byte, which sits at byte column 16. -/
theorem bleed_gutters_witness :
    (1 ≤ 1 ∧ 1 ≤ 1 ∧ 0 < List.length [[1, 2, 3, 4], [5, 6, 7, 8]])
    ∧ ((∀ rr, rr < 1 → ∀ b, b < 4 →
      sheet2 1 1 [[1, 2, 3, 4], [5, 6, 7, 8]] (0 / count_x 2 * (1 + 2) + 1 + rr)
          (0 % count_x 2 * stride 1 + b)
        = (List.getD [[1, 2, 3, 4], [5, 6, 7, 8]] 0 []).getD (rr * (1 * 4) + b) 0
      ∧ sheet2 1 1 [[1, 2, 3, 4], [5, 6, 7, 8]] (0 / count_x 2 * (1 + 2) + 1 + rr)
          (0 % count_x 2 * stride 1 + (stride 1 - 4 + b))
        = (List.getD [[1, 2, 3, 4], [5, 6, 7, 8]] 0 []).getD
            (rr * (1 * 4) + ((1 - 1) * 4 + b)) 0)
    ∧ (∀ cc, cc < 1 * 4 →
      sheet2 1 1 [[1, 2, 3, 4], [5, 6, 7, 8]] (0 / count_x 2 * (1 + 2))
          (0 % count_x 2 * stride 1 + (4 + cc))
        = (List.getD [[1, 2, 3, 4], [5, 6, 7, 8]] 0 []).getD cc 0
      ∧ sheet2 1 1 [[1, 2, 3, 4], [5, 6, 7, 8]] (0 / count_x 2 * (1 + 2) + (1 + 1))
          (0 % count_x 2 * stride 1 + (4 + cc))
        = (List.getD [[1, 2, 3, 4], [5, 6, 7, 8]] 0 []).getD
            ((1 - 1) * (1 * 4) + cc) 0)
    ∧ (∀ b, b < 4 →
      sheet2 1 1 [[1, 2, 3, 4], [5, 6, 7, 8]] (0 / count_x 2 * (1 + 2))
          (0 % count_x 2 * stride 1 + b)
        = (List.getD [[1, 2, 3, 4], [5, 6, 7, 8]] 0 []).getD b 0
      ∧ sheet2 1 1 [[1, 2, 3, 4], [5, 6, 7, 8]] (0 / count_x 2 * (1 + 2))
          (0 % count_x 2 * stride 1 + (stride 1 - 4 + b))
        = (List.getD [[1, 2, 3, 4], [5, 6, 7, 8]] 0 []).getD ((1 - 1) * 4 + b) 0
      ∧ sheet2 1 1 [[1, 2, 3, 4], [5, 6, 7, 8]] (0 / count_x 2 * (1 + 2) + (1 + 1))
          (0 % count_x 2 * stride 1 + b)
        = (List.getD [[1, 2, 3, 4], [5, 6, 7, 8]] 0 []).getD
            ((1 - 1) * (1 * 4) + b) 0
      ∧ sheet2 1 1 [[1, 2, 3, 4], [5, 6, 7, 8]] (0 / count_x 2 * (1 + 2) + (1 + 1))
          (0 % count_x 2 * stride 1 + (stride 1 - 4 + b))
        = (List.getD [[1, 2, 3, 4], [5, 6, 7, 8]] 0 []).getD
            ((1 - 1) * (1 * 4) + ((1 - 1) * 4 + b)) 0))
    ∧ sheet2 1 1 [[1, 2, 3, 4], [5, 6, 7, 8]] 1 8 = 1
    ∧ sheet2 1 1 [[1, 2, 3, 4], [5, 6, 7, 8]] 1 16 = 5 :=
  ⟨⟨by decide, by decide, by decide⟩,
    bleed_gutters 1 1 [[1, 2, 3, 4], [5, 6, 7, 8]] 0 (by decide) (by decide)
      (by decide),
    by decide, by decide⟩

/-! ## Byte cursor primitives

The cursor class of the messaging package is not under src/ (only
messaging/handle.py is); the readers below are modelled from the spec,
section 4.1.  A cursor is the list of bytes still to be read; every reader
returns none when the buffer is exhausted (the TruncatedMessage condition). -/

/-- Little-endian value of a byte list, first byte least significant. -/
def uintLE : List Nat → Nat
  | [] => 0
  | x :: r => x + 256 * uintLE r

/-- Modelled from the spec: take_uint(n_bytes) reads n_bytes little-endian
and advances the cursor, failing when fewer bytes remain. -/
def take_uint (k : Nat) (b : List Nat) : Option (Nat × List Nat) :=
  if k ≤ b.length then some (uintLE (b.take k), b.drop k) else none

/-- Modelled from the spec: take_sint(n_bytes) reads n_bytes little-endian
two's-complement. -/
def take_sint (k : Nat) (b : List Nat) : Option (Int × List Nat) :=
  (take_uint k b).map (fun p =>
    (if p.1 < 2 ^ (8 * k - 1) then (p.1 : Int) else (p.1 : Int) - 2 ^ (8 * k), p.2))

/-- Modelled from the spec: take_str reads a 2-byte length prefix then that
many UTF-8 bytes; the string is kept as its raw byte list here. -/
def take_str (b : List Nat) : Option (List Nat × List Nat) :=
  (take_uint 2 b).bind (fun p =>
    if p.1 ≤ p.2.length then some (p.2.take p.1, p.2.drop p.1) else none)

/-- Modelled from the spec: take_data reads a 4-byte length prefix then that
many raw bytes. -/
def take_data (b : List Nat) : Option (List Nat × List Nat) :=
  (take_uint 4 b).bind (fun p =>
    if p.1 ≤ p.2.length then some (p.2.take p.1, p.2.drop p.1) else none)

/-- Modelled from the spec: take_frame reads a (uint16 value, uint32
duration_ms) pair. -/
def take_frame (b : List Nat) : Option ((Nat × Nat) × List Nat) :=
  (take_uint 2 b).bind (fun v =>
    (take_uint 4 v.2).map (fun d => ((v.1, d.1), d.2)))

/-- Repeated application of a reader, as the list comprehensions of the
parse methods run a reader count times. -/
def takeCount (p : List Nat → Option (α × List Nat)) :
    Nat → List Nat → Option (List α × List Nat)
  | 0, b => some ([], b)
  | m + 1, b =>
    (p b).bind (fun a =>
      (takeCount p m a.2).map (fun l2 => (a.1 :: l2.1, l2.2)))

/-! ## Wire encoders (spec section 6 and the encode side of section 4.1) -/

/-- Little-endian byte encoding of n on k bytes. -/
def leBytes : Nat → Nat → List Nat
  | 0, _ => []
  | k + 1, n => n % 256 :: leBytes k (n / 256)

/-- String encoding: 2-byte length prefix then the bytes. -/
def encStr (s : List Nat) : List Nat := leBytes 2 s.length ++ s

/-- Blob encoding: 4-byte length prefix then the bytes. -/
def encData (d : List Nat) : List Nat := leBytes 4 d.length ++ d

/-- Signed encoding: two's-complement on k bytes. -/
def encSint (k : Nat) (v : Int) : List Nat := leBytes k (v % (2 ^ (8 * k))).toNat

/-- Frame encoding: uint16 value then uint32 duration. -/
def encFrame (f : Nat × Nat) : List Nat := leBytes 2 f.1 ++ leBytes 4 f.2

/-- Animation tag encoding: string name, uint16 start, uint16 end, uint8
direction. -/
def encTag (t : List Nat × Nat × Nat × Nat) : List Nat :=
  encStr t.1 ++ leBytes 2 t.2.1 ++ leBytes 2 t.2.2.1 ++ leBytes 1 t.2.2.2

/-! ## Decode-of-encode lemmas -/

lemma leBytes_length (k : Nat) : ∀ n, (leBytes k n).length = k := by
  induction k with
  | zero => intro n; simp [leBytes]
  | succ m ih => intro n; simp [leBytes, ih]

lemma uintLE_leBytes (k : Nat) : ∀ n, uintLE (leBytes k n) = n % 256 ^ k := by
  induction k with
  | zero => intro n; simp [leBytes, uintLE, Nat.mod_one]
  | succ m ih =>
    intro n
    simp only [leBytes, uintLE, ih]
    rw [pow_succ', Nat.mod_mul]

lemma take_uint_enc (k n : Nat) (r : List Nat) (hn : n < 256 ^ k) :
    take_uint k (leBytes k n ++ r) = some (n, r) := by
  have hl : (leBytes k n).length = k := leBytes_length k n
  simp only [take_uint, List.length_append, hl]
  rw [if_pos (by omega)]
  rw [List.take_left' hl, List.drop_left' hl, uintLE_leBytes,
    Nat.mod_eq_of_lt hn]

lemma take_str_enc (s r : List Nat) (h : s.length < 256 ^ 2) :
    take_str (encStr s ++ r) = some (s, r) := by
  simp only [encStr, List.append_assoc, take_str]
  rw [take_uint_enc 2 s.length (s ++ r) h]
  simp only [Option.some_bind, List.length_append]
  rw [if_pos (by omega)]
  rw [List.take_left, List.drop_left]

lemma take_data_enc (d r : List Nat) (h : d.length < 256 ^ 4) :
    take_data (encData d ++ r) = some (d, r) := by
  simp only [encData, List.append_assoc, take_data]
  rw [take_uint_enc 4 d.length (d ++ r) h]
  simp only [Option.some_bind, List.length_append]
  rw [if_pos (by omega)]
  rw [List.take_left, List.drop_left]

lemma take_frame_enc (v d : Nat) (r : List Nat) (hv : v < 256 ^ 2)
    (hd : d < 256 ^ 4) :
    take_frame (encFrame (v, d) ++ r) = some ((v, d), r) := by
  simp only [encFrame, List.append_assoc, take_frame]
  rw [take_uint_enc 2 v _ hv]
  simp only [Option.some_bind]
  rw [take_uint_enc 4 d r hd]
  rfl

lemma take_sint4_enc (v : Int) (r : List Nat)
    (h1 : -2147483648 ≤ v) (h2 : v < 2147483648) :
    take_sint 4 (encSint 4 v ++ r) = some (v, r) := by
  have hpow : (2 : Int) ^ (8 * 4) = 4294967296 := by norm_num
  have hchar : v % (2 : Int) ^ (8 * 4) = if v < 0 then v + 4294967296 else v := by
    rw [hpow]
    split
    · omega
    · omega
  have hm : (v % (2 : Int) ^ (8 * 4)).toNat < 256 ^ 4 := by
    rw [hchar]
    split <;> omega
  simp only [encSint, take_sint]
  rw [take_uint_enc _ _ _ hm]
  simp only [Option.map_some']
  have hp : (2 : Nat) ^ (8 * 4 - 1) = 2147483648 := by norm_num
  rw [hp]
  split
  · rename_i hlt
    rw [hchar] at hlt ⊢
    congr 1
    refine Prod.ext ?_ rfl
    simp only
    split at hlt <;> split <;> omega
  · rename_i hlt
    rw [hchar] at hlt ⊢
    congr 1
    refine Prod.ext ?_ rfl
    simp only
    split at hlt <;> split <;> omega

lemma takeCount_enc (p : List Nat → Option (α × List Nat)) (enc : α → List Nat)
    (l : List α) (r : List Nat)
    (hp : ∀ a ∈ l, ∀ s, p (enc a ++ s) = some (a, s)) :
    takeCount p l.length ((l.map enc).flatten ++ r) = some (l, r) := by
  induction l with
  | nil => simp [takeCount]
  | cons a t ih =>
    simp only [List.map_cons, List.flatten_cons, List.append_assoc,
      List.length_cons, takeCount]
    rw [hp a (by simp) ((t.map enc).flatten ++ r)]
    simp only [Option.some_bind]
    rw [ih (fun x hx s => hp x (by simp [hx]) s)]
    rfl

/-! ## Spritesheet message parsing (messaging/handle.py, lines 69-91) -/

/-- Spritesheet.take_tag (handle.py lines 73-78): string name, uint16 start,
uint16 end, uint8 direction. -/
def take_tag (b : List Nat) : Option ((List Nat × Nat × Nat × Nat) × List Nat) :=
  (take_str b).bind (fun nm =>
    (take_uint 2 nm.2).bind (fun s =>
      (take_uint 2 s.2).bind (fun e =>
        (take_uint 1 e.2).map (fun dir =>
          ((nm.1, s.1, e.1, dir.1), dir.2)))))

/-- Decoded argument record of the Spritesheet handler (handle.py parse,
lines 81-91); strings are kept as raw byte lists. -/
structure SpritesheetArgs where
  width : Nat
  height : Nat
  name : List Nat
  start : Int
  length : Nat
  current_frame : Nat
  frames : List (Nat × Nat)
  current_tag : List Nat
  tags : List (List Nat × Nat × Nat × Nat)
  images : List (List Nat)
deriving DecidableEq

/-- Spritesheet.parse (handle.py lines 81-91), reading in source order:
uint16 width, uint16 height, string name, sint32 start, uint32 length,
uint32 current_frame, length frames, uint32 tag count, string current_tag,
the tags, then length pixel blobs. -/
def spritesheet_parse (b : List Nat) : Option (SpritesheetArgs × List Nat) :=
  (take_uint 2 b).bind (fun w =>
  (take_uint 2 w.2).bind (fun h =>
  (take_str h.2).bind (fun nm =>
  (take_sint 4 nm.2).bind (fun st =>
  (take_uint 4 st.2).bind (fun len =>
  (take_uint 4 len.2).bind (fun cur =>
  (takeCount take_frame len.1 cur.2).bind (fun fr =>
  (take_uint 4 fr.2).bind (fun ntags =>
  (take_str ntags.2).bind (fun ctag =>
  (takeCount take_tag ntags.1 ctag.2).bind (fun tg =>
  (takeCount take_data len.1 tg.2).map (fun im =>
  ({ width := w.1, height := h.1, name := nm.1, start := st.1, length := len.1,
     current_frame := cur.1, frames := fr.1, current_tag := ctag.1,
     tags := tg.1, images := im.1 }, im.2))))))))))))

/-- Body encoding of a Spritesheet message following the wire table of the
spec, section 6, tag G. -/
def encodeSpritesheetBody (a : SpritesheetArgs) : List Nat :=
  leBytes 2 a.width ++ leBytes 2 a.height ++ encStr a.name ++ encSint 4 a.start
    ++ leBytes 4 a.length ++ leBytes 4 a.current_frame
    ++ (a.frames.map encFrame).flatten ++ leBytes 4 a.tags.length
    ++ encStr a.current_tag ++ (a.tags.map encTag).flatten
    ++ (a.images.map encData).flatten

lemma take_tag_enc (t : List Nat × Nat × Nat × Nat) (r : List Nat)
    (h1 : t.1.length < 256 ^ 2) (h2 : t.2.1 < 256 ^ 2)
    (h3 : t.2.2.1 < 256 ^ 2) (h4 : t.2.2.2 < 256 ^ 1) :
    take_tag (encTag t ++ r) = some (t, r) := by
  obtain ⟨nm, s, e, dir⟩ := t
  simp only [encTag, List.append_assoc, take_tag]
  rw [take_str_enc nm _ h1]
  simp only [Option.some_bind]
  rw [take_uint_enc 2 s _ h2]
  simp only [Option.some_bind]
  rw [take_uint_enc 2 e _ h3]
  simp only [Option.some_bind]
  rw [take_uint_enc 1 dir r h4]
  rfl

/-- C7: Spritesheet wire field order.  Parsing a body laid out per the wire
table — uint16 width, uint16 height, length-prefixed name, sint32 start,
uint32 length, uint32 current_frame, length (uint16, uint32) frame pairs,
uint32 tag_count, string current_tag, tag_count (name, uint16, uint16,
uint8) tags, then length length-prefixed pixel blobs — recovers every field
exactly and leaves exactly the trailing bytes, for every well-formed
argument record.  Since parse consumes the encoder's output field for field,
its reads occur in exactly this order. -/
theorem spritesheet_parse_field_order (a : SpritesheetArgs) (r : List Nat)
    (hw : a.width < 256 ^ 2) (hh : a.height < 256 ^ 2)
    (hname : a.name.length < 256 ^ 2)
    (hst1 : -2147483648 ≤ a.start) (hst2 : a.start < 2147483648)
    (hlen : a.length = a.frames.length)
    (hflen : a.frames.length < 256 ^ 4)
    (hcur : a.current_frame < 256 ^ 4)
    (hfr : ∀ f ∈ a.frames, f.1 < 256 ^ 2 ∧ f.2 < 256 ^ 4)
    (htlen : a.tags.length < 256 ^ 4)
    (hctag : a.current_tag.length < 256 ^ 2)
    (htg : ∀ t ∈ a.tags, t.1.length < 256 ^ 2 ∧ t.2.1 < 256 ^ 2
      ∧ t.2.2.1 < 256 ^ 2 ∧ t.2.2.2 < 256 ^ 1)
    (him : a.images.length = a.frames.length)
    (himl : ∀ d ∈ a.images, d.length < 256 ^ 4) :
    spritesheet_parse (encodeSpritesheetBody a ++ r) = some (a, r) := by
  simp only [encodeSpritesheetBody, List.append_assoc, spritesheet_parse]
  rw [take_uint_enc 2 a.width _ hw]
  simp only [Option.some_bind]
  rw [take_uint_enc 2 a.height _ hh]
  simp only [Option.some_bind]
  rw [take_str_enc a.name _ hname]
  simp only [Option.some_bind]
  rw [take_sint4_enc a.start _ hst1 hst2]
  simp only [Option.some_bind]
  rw [take_uint_enc 4 a.length _ (by rw [hlen]; exact hflen)]
  simp only [Option.some_bind]
  rw [take_uint_enc 4 a.current_frame _ hcur]
  simp only [Option.some_bind, hlen]
  rw [takeCount_enc take_frame encFrame a.frames _
    (fun f hf s => take_frame_enc f.1 f.2 s (hfr f hf).1 (hfr f hf).2)]
  simp only [Option.some_bind]
  rw [take_uint_enc 4 a.tags.length _ htlen]
  simp only [Option.some_bind]
  rw [take_str_enc a.current_tag _ hctag]
  simp only [Option.some_bind]
  rw [takeCount_enc take_tag encTag a.tags _
    (fun t ht s => take_tag_enc t s (htg t ht).1 (htg t ht).2.1
      (htg t ht).2.2.1 (htg t ht).2.2.2)]
  simp only [Option.some_bind, ← him]
  rw [takeCount_enc take_data encData a.images _
    (fun d hd s => take_data_enc d s (himl d hd))]
  simp only [Option.map_some']
  rw [him, ← hlen]

/-- Witness for C7 at a small concrete Spritesheet message with one frame,
one tag and trailing bytes. -/
theorem spritesheet_parse_field_order_witness :
    spritesheet_parse (encodeSpritesheetBody
      { width := 2, height := 2, name := [65, 66], start := -5, length := 1,
        current_frame := 0, frames := [(7, 100)], current_tag := [],
        tags := [([119, 97], 0, 3, 1)], images := [[9, 9, 9]] } ++ [1, 2])
      = some ({ width := 2, height := 2, name := [65, 66], start := -5,
                length := 1, current_frame := 0, frames := [(7, 100)],
                current_tag := [], tags := [([119, 97], 0, 3, 1)],
                images := [[9, 9, 9]] }, [1, 2]) :=
  spritesheet_parse_field_order
    { width := 2, height := 2, name := [65, 66], start := -5, length := 1,
      current_frame := 0, frames := [(7, 100)], current_tag := [],
      tags := [([119, 97], 0, 3, 1)], images := [[9, 9, 9]] } [1, 2]
    (by decide) (by decide) (by decide) (by decide) (by decide) (by decide)
    (by decide) (by decide) (by decide) (by decide) (by decide) (by decide)
    (by decide) (by decide)

/-! ## ActiveSprite message (messaging/handle.py, lines 206-217) -/

/-- Fields of the addon singleton touched by the ActiveSprite handler
(addon.py lines 35-36): the currently focused sprite name and whether a UV
watch object is present. -/
structure AddonState where
  active_sprite : Option (List Nat)
  watch : Bool
deriving DecidableEq

/-- ActiveSprite.parse (handle.py lines 210-212): one length-prefixed
string; the Python idiom `name and name or None` maps the empty string to
None and any other string to itself. -/
def activeSprite_parse (b : List Nat) : Option (Option (List Nat) × List Nat) :=
  (take_str b).map (fun p => (if p.1 = [] then none else some p.1, p.2))

/-- ActiveSprite.execute (handle.py lines 214-217): store the decoded value
as the addon's active sprite.  The subsequent optional resend of the UV
watcher sends a message but does not change the addon state. -/
def activeSprite_execute (nm : Option (List Nat)) (st : AddonState) :
    AddonState :=
  { st with active_sprite := nm }

/-- C8: ActiveSprite none-encoding.  Parsing a body holding one
length-prefixed string decodes it to none for the empty string and to the
string itself otherwise; execute sets the session's focused sprite name to
exactly the decoded value, clearing it (none) for the empty string, and
leaves the rest of the addon state alone. -/
theorem active_sprite_spec (s r : List Nat) (h : s.length < 256 ^ 2) :
    activeSprite_parse (encStr s ++ r)
      = some (if s = [] then none else some s, r)
    ∧ (∀ st v, (activeSprite_execute v st).active_sprite = v
        ∧ (activeSprite_execute v st).watch = st.watch)
    ∧ activeSprite_parse (encStr [] ++ r) = some (none, r) := by
  refine ⟨?_, ?_, ?_⟩
  · simp only [activeSprite_parse]
    rw [take_str_enc s r h]
    rfl
  · intro st v
    exact ⟨rfl, rfl⟩
  · simp only [activeSprite_parse]
    rw [take_str_enc [] r (by decide)]
    simp

/-- Witness for C8 at the one-byte name "A" with empty trailing bytes. -/
theorem active_sprite_spec_witness :
    List.length [65] < 256 ^ 2
    ∧ (activeSprite_parse (encStr [65] ++ [])
        = some (if ([65] : List Nat) = [] then none else some [65], [])
      ∧ (∀ st v, (activeSprite_execute v st).active_sprite = v
          ∧ (activeSprite_execute v st).watch = st.watch)
      ∧ activeSprite_parse (encStr [] ++ []) = some (none, [])) :=
  ⟨by decide, active_sprite_spec [65] [] (by decide)⟩

/-! ## Transport send (sync.py, Server) -/

/-- Websocket connection object: only its closed flag matters to the send
path (aiohttp WebSocketResponse.closed). -/
structure WsState where
  closed : Bool
deriving DecidableEq

/-- Transport state: the Server fields (sync.py lines 40-46).  The ws field
models self._ws: none until a client connects; note that the receive loop
(sync.py lines 103-136) never resets it to none, so after a peer disconnects
it still holds the now-closed websocket object. -/
structure ServerState where
  host : List Nat
  port : Nat
  ws : Option WsState
  startTime : Nat
deriving DecidableEq

/-- Server.connected (sync.py lines 57-59): a websocket exists and is not
closed. -/
def server_connected (s : ServerState) : Bool :=
  match s.ws with
  | none => false
  | some w => !w.closed

/-- Server.send (sync.py lines 49-54): when a websocket object exists — open
or closed — the message is scheduled for transmission on it
(asyncio.ensure_future of ws.send_bytes); with no websocket object nothing
happens.  Either way the server state itself is unchanged; the second
component lists the scheduled transmissions. -/
def server_send (s : ServerState) (msg : List Nat) :
    ServerState × List (List Nat) :=
  match s.ws with
  | none => (s, [])
  | some _ => (s, [msg])

/-- Counterexample to C6 as stated: after a peer has connected and
disconnected, the server holds a closed websocket; it is not in the
Connected state, yet send still schedules a transmission (which is not a
no-op on the transport). -/
theorem send_disconnected_cex :
    server_connected
      { host := [], port := 0, ws := some { closed := true }, startTime := 0 }
      = false
    ∧ (server_send
        { host := [], port := 0, ws := some { closed := true }, startTime := 0 }
        [7]).2 ≠ [] := by
  constructor
  · rfl
  · intro hc
    simp [server_send] at hc

/-- C6 amended: send is a silent no-op — nothing transmitted, every server
field unchanged, no error — exactly when the transport holds no websocket
object (no client ever connected, which is one of the not-Connected states);
when a websocket object exists but is closed (the other not-Connected
state), send still schedules the message on it, though the server state is
again unchanged. -/
theorem send_no_socket_noop (s : ServerState) (msg : List Nat)
    (h : s.ws = none) :
    server_send s msg = (s, []) := by
  simp [server_send, h]

/-- Witness for the amended C6 at a fresh server with no websocket. -/
theorem send_no_socket_noop_witness :
    ({ host := [104], port := 34613, ws := none, startTime := 5 }
        : ServerState).ws = none
    ∧ server_send
        { host := [104], port := 34613, ws := none, startTime := 5 } [1, 2, 3]
      = ({ host := [104], port := 34613, ws := none, startTime := 5 }, []) :=
  ⟨rfl, send_no_socket_noop
    { host := [104], port := 34613, ws := none, startTime := 5 } [1, 2, 3] rfl⟩

/-! ## Batch dispatch (messaging/handle.py lines 33-44; dispatcher modelled
from the spec, section 4.3, as the Handlers class is not under src/) -/

/-- Tag byte of the Batch handler: handle.py line 35, id = "[" (byte 91). -/
def batchTag : Nat := 91

/-- Batch.parse (handle.py lines 37-39): a 2-byte count, then count
length-prefixed sub-message blobs. -/
def batch_parse (b : List Nat) : Option (List (List Nat) × List Nat) :=
  (take_uint 2 b).bind (fun c => takeCount take_data c.1 c.2)

lemma take_uint_size (k : Nat) (b : List Nat) (v : Nat) (r : List Nat)
    (h : take_uint k b = some (v, r)) : r.length + k = b.length := by
  simp only [take_uint] at h
  split at h
  · rename_i hk
    rw [Option.some.injEq, Prod.mk.injEq] at h
    obtain ⟨h1, h2⟩ := h
    rw [← h2, List.length_drop]
    omega
  · exact Option.noConfusion h

lemma take_data_size (b d r : List Nat) (h : take_data b = some (d, r)) :
    d.length + 4 ≤ b.length ∧ r.length ≤ b.length := by
  simp only [take_data] at h
  cases h1 : take_uint 4 b with
  | none => rw [h1] at h; exact Option.noConfusion h
  | some p =>
    rw [h1] at h
    simp only [Option.some_bind] at h
    have hu := take_uint_size 4 b p.1 p.2 (by rw [h1])
    split at h
    · rename_i hg
      rw [Option.some.injEq, Prod.mk.injEq] at h
      obtain ⟨h2, h3⟩ := h
      have hd : d.length = p.1 := by
        rw [← h2, List.length_take]
        omega
      have hr : r.length = p.2.length - p.1 := by
        rw [← h3, List.length_drop]
      omega
    · exact Option.noConfusion h

lemma takeCount_data_size (m : Nat) : ∀ b ds r,
    takeCount take_data m b = some (ds, r) →
    ∀ d ∈ ds, d.length + 4 ≤ b.length := by
  induction m with
  | zero =>
    intro b ds r h d hd
    simp only [takeCount, Option.some.injEq, Prod.mk.injEq] at h
    obtain ⟨h1, h2⟩ := h
    rw [← h1] at hd
    simp at hd
  | succ m ih =>
    intro b ds r h d hd
    simp only [takeCount] at h
    cases h1 : take_data b with
    | none => rw [h1] at h; exact Option.noConfusion h
    | some p =>
      rw [h1] at h
      simp only [Option.some_bind] at h
      cases h2 : takeCount take_data m p.2 with
      | none => rw [h2] at h; exact Option.noConfusion h
      | some q =>
        rw [h2] at h
        simp only [Option.map_some', Option.some.injEq, Prod.mk.injEq] at h
        obtain ⟨h3, h4⟩ := h
        have hsz := take_data_size b p.1 p.2 (by rw [h1])
        rw [← h3] at hd
        rcases List.mem_cons.mp hd with hval | htail
        · rw [hval]
          omega
        · have := ih p.2 q.1 q.2 (by rw [h2]) d htail
          omega

lemma batch_parse_size (b : List Nat) (bl : List (List Nat)) (r : List Nat)
    (h : batch_parse b = some (bl, r)) : ∀ d ∈ bl, d.length + 6 ≤ b.length := by
  simp only [batch_parse] at h
  cases h1 : take_uint 2 b with
  | none => rw [h1] at h; exact Option.noConfusion h
  | some c =>
    rw [h1] at h
    simp only [Option.some_bind] at h
    intro d hd
    have hs := takeCount_data_size c.1 c.2 bl r h d hd
    have hu := take_uint_size 2 b c.1 c.2 (by rw [h1])
    omega

/-- Observable handler activity of one dispatch. -/
inductive Event where
  | exec (tag : Nat) (body : List Nat)
  | unknown (tag : Nat)
  | truncated
deriving DecidableEq

/-- Handlers.process, modelled from the spec (section 4.3; the Handlers
class of the messaging package is not under src/): read the tag byte, look
up the handler, parse, then await execute.  reg gives the tags carrying a
registered non-batch handler (registration happens in addon.py lines
140-148); the Batch handler itself sits at batchTag.  A non-batch handler's
execute is abstracted as one event recording the handler tag and its body
bytes — parse is a pure function of the body, so the event determines the
handler invocation.  Batch.execute (handle.py lines 42-44) awaits the
dispatch of each decoded sub-message to completion, in order, modelled by
concatenating their traces in order. -/
def process (reg : Nat → Bool) (msg : List Nat) : List Event :=
  match msg with
  | [] => [Event.truncated]
  | tag :: body =>
    if tag = batchTag then
      match hp : batch_parse body with
      | none => [Event.truncated]
      | some bl => (bl.1.attach.map (fun m => process reg m.1)).flatten
    else if reg tag then [Event.exec tag body] else [Event.unknown tag]
termination_by msg.length
decreasing_by
  have hs := batch_parse_size _ bl.1 bl.2 (by rw [hp]) m.1 m.2
  simp only [List.length_cons]
  omega

/-- Wire encoding of a Batch message (spec section 6, tag 0x5B): the tag
byte, a uint16 count, then count length-prefixed sub-messages. -/
def mkBatch (ms : List (List Nat)) : List Nat :=
  batchTag :: (leBytes 2 ms.length ++ (ms.map encData).flatten)

/-- C4: Batch transparency.  The Batch handler parses a 2-byte count
followed by count length-prefixed sub-message blobs (batch_parse) and awaits
each sub-message's dispatch to completion before the next; dispatching a
Batch message holding sub-messages m1, ..., mn therefore produces exactly
the handler-execution trace of dispatching m1, ..., mn individually in
sequence — for every handler registry and even for malformed sub-messages,
whose error events also agree. -/
theorem batch_transparent (reg : Nat → Bool) (ms : List (List Nat))
    (hc : ms.length < 256 ^ 2) (hm : ∀ m ∈ ms, m.length < 256 ^ 4) :
    process reg (mkBatch ms) = (ms.map (process reg)).flatten := by
  have hparse : batch_parse (leBytes 2 ms.length ++ (ms.map encData).flatten)
      = some (ms, []) := by
    simp only [batch_parse]
    rw [take_uint_enc 2 ms.length _ hc]
    simp only [Option.some_bind]
    have := takeCount_enc take_data encData ms []
      (fun m hmem s => take_data_enc m s (hm m hmem))
    simpa using this
  rw [mkBatch, process, if_pos rfl, hparse]
  simp only [List.attach_map_val]

/-- Witness for C4: a batch of two sub-messages — an Image message (tag 73)
with body [1], and an empty (truncated) blob — dispatched against a registry
knowing exactly tag 73. -/
theorem batch_transparent_witness :
    (List.length [[73, 1], ([] : List Nat)] < 256 ^ 2
    ∧ ∀ m ∈ [[73, 1], ([] : List Nat)], m.length < 256 ^ 4)
    ∧ process (fun t => t == 73) (mkBatch [[73, 1], []])
      = ([[73, 1], ([] : List Nat)].map (process (fun t => t == 73))).flatten :=
  ⟨⟨by decide, by decide⟩,
    batch_transparent (fun t => t == 73) [[73, 1], []] (by decide) (by decide)⟩

end Pribambase
